import Mathlib

/-!
Verification of the modulation/demodulation simulation engine of the
wireless-modulation-sim repository.

The UI components under `src/components` are embedded from the TypeScript
source.  The engine modules (`src/types.ts`, `src/utils/modulation.ts`,
`src/utils/theory.ts`, `src/hooks/useSimulation.ts`) are not part of the
source snapshot; where a definition from one of those modules is needed it
is modelled from the specification and carries a doc comment saying so.
Floating-point numbers are modelled as real numbers.
-/

namespace ModSim

open Real MeasureTheory

/-- Modelled from the spec: the closed set of modulation schemes declared in
the missing `src/types.ts` (`ModulationScheme`). -/
inductive ModulationScheme where
  | BPSK
  | QPSK
  | PSK8
  | QAM16
  | QAM64
deriving DecidableEq, Repr

/-- Modelled from the spec: the fixed bits-per-symbol table of the missing
`src/types.ts` (`BITS_PER_SYMBOL`): 1, 2, 3, 4, 6 respectively. -/
def BITS_PER_SYMBOL : ModulationScheme → ℕ
  | .BPSK => 1
  | .QPSK => 2
  | .PSK8 => 3
  | .QAM16 => 4
  | .QAM64 => 6

/-- Modelled from the spec: the ordered scheme list of the missing
`src/types.ts` (`MODULATION_SCHEMES`). -/
def MODULATION_SCHEMES : List ModulationScheme :=
  [.BPSK, .QPSK, .PSK8, .QAM16, .QAM64]

/-- Big-endian bit vector of length `k` for the natural number `n`. -/
def natBits (k n : ℕ) : List Bool :=
  (List.range k).map (fun j => n.testBit (k - 1 - j))

/-- Binary-reflected Gray code of a natural number. -/
def grayCode (n : ℕ) : ℕ := n ^^^ (n >>> 1)

/-- Number of positions at which two bit vectors differ. -/
def hamming (a b : List Bool) : ℕ :=
  (List.zipWith (fun x y => x != y) a b).count true

/-- A constellation point: I/Q coordinates plus the Gray-coded bit label,
as in the `ConstellationPoint` record of the spec's data model. -/
structure ConstellationPoint where
  I : ℝ
  Q : ℝ
  bits : List Bool

/-- Modelled from the spec: `generateConstellation` of the missing
`src/utils/modulation.ts`.  BPSK: bit 0 at (-1,0), bit 1 at (+1,0).
QPSK: unit circle at odd multiples of 45 degrees, Gray-coded around the
circle.  8-PSK: eight equally spaced phases, Gray-coded around the circle.
16-QAM / 64-QAM: square lattice in row-major order, each axis independently
Gray-coded, scaled so that the mean symbol energy is 1 (levels
±1,±3 scaled by 1/√10 for 16-QAM, ±1..±7 scaled by 1/√42 for 64-QAM). -/
noncomputable def generateConstellation : ModulationScheme → List ConstellationPoint
  | .BPSK =>
      [⟨-1, 0, [false]⟩, ⟨1, 0, [true]⟩]
  | .QPSK =>
      (List.range 4).map (fun (i : ℕ) =>
        ⟨Real.cos (Real.pi / 4 + (i : ℝ) * (Real.pi / 2)),
         Real.sin (Real.pi / 4 + (i : ℝ) * (Real.pi / 2)),
         natBits 2 (grayCode i)⟩)
  | .PSK8 =>
      (List.range 8).map (fun (i : ℕ) =>
        ⟨Real.cos ((i : ℝ) * (Real.pi / 4)),
         Real.sin ((i : ℝ) * (Real.pi / 4)),
         natBits 3 (grayCode i)⟩)
  | .QAM16 =>
      (List.range 16).map (fun (idx : ℕ) =>
        ⟨(2 * ((idx % 4 : ℕ) : ℝ) - 3) * (Real.sqrt 10)⁻¹,
         (2 * ((idx / 4 : ℕ) : ℝ) - 3) * (Real.sqrt 10)⁻¹,
         natBits 2 (grayCode (idx % 4)) ++ natBits 2 (grayCode (idx / 4))⟩)
  | .QAM64 =>
      (List.range 64).map (fun (idx : ℕ) =>
        ⟨(2 * ((idx % 8 : ℕ) : ℝ) - 7) * (Real.sqrt 42)⁻¹,
         (2 * ((idx / 8 : ℕ) : ℝ) - 7) * (Real.sqrt 42)⁻¹,
         natBits 3 (grayCode (idx % 8)) ++ natBits 3 (grayCode (idx / 8))⟩)

/-- The bit labels of the constellation, as a computable list so that the
Gray-coding invariant can be checked by evaluation. -/
def constellationBits : ModulationScheme → List (List Bool)
  | .BPSK => [[false], [true]]
  | .QPSK => (List.range 4).map (fun i => natBits 2 (grayCode i))
  | .PSK8 => (List.range 8).map (fun i => natBits 3 (grayCode i))
  | .QAM16 => (List.range 16).map (fun idx =>
      natBits 2 (grayCode (idx % 4)) ++ natBits 2 (grayCode (idx / 4)))
  | .QAM64 => (List.range 64).map (fun idx =>
      natBits 3 (grayCode (idx % 8)) ++ natBits 3 (grayCode (idx / 8)))

/-- Circular Gray-coding contract for PSK labels: every pair of circularly
adjacent labels differs in exactly one bit position. -/
abbrev grayCircularOK (labels : List (List Bool)) : Prop :=
  ∀ i < labels.length,
    hamming (labels.getD i []) (labels.getD ((i + 1) % labels.length) []) = 1

/-- Lattice Gray-coding contract for row-major QAM labels: every pair of
same-row or same-column adjacent labels differs in exactly one bit. -/
abbrev grayLatticeOK (side : ℕ) (labels : List (List Bool)) : Prop :=
  ∀ r < side, ∀ c < side,
    (c + 1 < side →
      hamming (labels.getD (r * side + c) []) (labels.getD (r * side + c + 1) []) = 1) ∧
    (r + 1 < side →
      hamming (labels.getD (r * side + c) []) (labels.getD ((r + 1) * side + c) []) = 1)

/-- Modelled from the spec: conversion of Eb/N0 in dB to the linear ratio,
performed by the missing `src/utils/modulation.ts` / `src/utils/theory.ts`. -/
noncomputable def ebn0Linear (snrDb : ℝ) : ℝ := (10 : ℝ) ^ (snrDb / 10)

/-- Modelled from the spec: the noise spectral density N0 reconstructed by the
Channel Simulator of the missing `src/utils/modulation.ts`: symbol energy is
normalized to 1, so Eb = 1/k and N0 = Eb / (Eb/N0 linear). -/
noncomputable def noiseN0 (s : ModulationScheme) (snrDb : ℝ) : ℝ :=
  (1 / (BITS_PER_SYMBOL s : ℝ)) / ebn0Linear snrDb

/-- Modelled from the spec: the per-dimension noise standard deviation of the
Channel Simulator of the missing `src/utils/modulation.ts`, chosen so the
per-dimension noise power equals N0/2. -/
noncomputable def noiseStdDev (s : ModulationScheme) (snrDb : ℝ) : ℝ :=
  Real.sqrt (noiseN0 s snrDb / 2)

/-- Gaussian tail function Q(x): the probability that a standard normal random
variable exceeds x, written as the integral of the standard normal density. -/
noncomputable def Qfunc (x : ℝ) : ℝ :=
  (Real.sqrt (2 * Real.pi))⁻¹ * ∫ t in Set.Ici x, Real.exp (-(1/2) * t ^ 2)

/-- Modelled from the spec: `theoreticalBER` of the missing
`src/utils/theory.ts`.  BPSK/QPSK: Q(√(2·Eb/N0)).  8-PSK:
(2/k)·Q(√(2k·Eb/N0)·sin(π/8)) with k = 3.  16-QAM/64-QAM:
(4/k)·(1 − 1/√M)·Q(√(3k·Eb/N0/(M−1))) with M the constellation size. -/
noncomputable def theoreticalBER : ModulationScheme → ℝ → ℝ
  | .BPSK, snrDb => Qfunc (Real.sqrt (2 * ebn0Linear snrDb))
  | .QPSK, snrDb => Qfunc (Real.sqrt (2 * ebn0Linear snrDb))
  | .PSK8, snrDb =>
      (2 / 3) * Qfunc (Real.sqrt (2 * 3 * ebn0Linear snrDb) * Real.sin (Real.pi / 8))
  | .QAM16, snrDb =>
      (4 / 4) * (1 - 1 / Real.sqrt 16) *
        Qfunc (Real.sqrt (3 * 4 * ebn0Linear snrDb / (16 - 1)))
  | .QAM64, snrDb =>
      (4 / 6) * (1 - 1 / Real.sqrt 64) *
        Qfunc (Real.sqrt (3 * 6 * ebn0Linear snrDb / (64 - 1)))

/-- Modelled from the spec: the simulated BER of the Statistics Accumulator of
the missing `src/hooks/useSimulation.ts`: bitErrorCount / bitCount, defined as
the sentinel 0 when bitCount = 0 so that no division by zero occurs. -/
noncomputable def simulatedBER (bitErrorCount bitCount : ℕ) : ℝ :=
  if bitCount = 0 then 0 else (bitErrorCount : ℝ) / (bitCount : ℝ)

/-- Embedded from `src/components` StatisticsPanel (`berRatio`): the ratio of
simulated to theoretical BER is computed only when both are positive;
otherwise the no-data sentinel (the string literal N/A in the source,
`none` here) is produced. -/
noncomputable def berRatio (sim theo : ℝ) : Option ℝ :=
  if 0 < theo ∧ 0 < sim then some (sim / theo) else none

/-- Embedded from `src/App.tsx` (BERPlot `simulatedBER` prop): the simulated
BER is passed to the plot only when bitCount > 0, otherwise `null`
(`none` here). -/
def berPlotSimulated (bitCount : ℕ) (currentBER : ℝ) : Option ℝ :=
  if 0 < bitCount then some currentBER else none

/-- Embedded from `src/components/PlaybackControls.tsx` (`handleSpeedChange`):
the slider value is mapped through a logarithmic scale, rounded, and clamped
to [minSpeed, maxSpeed]. -/
noncomputable def handleSpeedChange (minSpeed maxSpeed sliderValue : ℝ) : ℝ :=
  let logMin := Real.logb 10 minSpeed
  let logMax := Real.logb 10 maxSpeed
  let logSpeed := logMin + (sliderValue / 100) * (logMax - logMin)
  let newSpeed := ((round ((10 : ℝ) ^ logSpeed) : ℤ) : ℝ)
  max minSpeed (min maxSpeed newSpeed)

/-- Modelled from the spec: `setSnrDb` of the missing
`src/hooks/useSimulation.ts` clamps its argument to the scheme-dependent
range [−5, maxSnr], where maxSnr is `getMaxUsefulSnr` of the current
scheme (its per-scheme value lives in the missing `src/utils/theory.ts`,
so it is kept as a parameter here). -/
def setSnrDbClamped (maxSnr value : ℝ) : ℝ := max (-5) (min maxSnr value)

/-- Embedded from `src/components/ModulationWaveforms.tsx` (`sincSpectrum`):
sinc(x) = sin(πx)/(πx), with the removable singularity handled by returning 1
whenever |f| < 0.001. -/
noncomputable def sincSpectrum (f : ℝ) : ℝ :=
  if |f| < 0.001 then 1 else Real.sin (Real.pi * f) / (Real.pi * f)

/-- A received symbol kept for display, as in the spec's `ReceivedSymbol`. -/
structure ReceivedSymbol where
  I : ℝ
  Q : ℝ
  isError : Bool

/-- The per-symbol outcome of one pass through the Channel Simulator and
Demodulator pipeline: received I/Q, number of bit errors, source bits. -/
structure SymbolResult where
  rI : ℝ
  rQ : ℝ
  bitErrors : ℕ
  srcBits : List Bool

/-- Modelled from the spec: the Controller's mutable `SimulationState`
record of the missing `src/hooks/useSimulation.ts`. -/
structure SimulationState where
  scheme : ModulationScheme
  snrDb : ℝ
  isPlaying : Bool
  playbackSpeed : ℝ
  symbolCount : ℕ
  bitCount : ℕ
  bitErrorCount : ℕ
  recentSymbols : List ReceivedSymbol
  currentBits : List Bool

/-- Modelled from the spec: the fixed capacity of the received-symbol ring
buffer ("on the order of hundreds of entries"). -/
def RING_BUFFER_CAPACITY : ℕ := 200

/-- Bounded order-preserving insertion into the ring buffer: once capacity is
reached, the oldest entry is evicted. -/
def pushRing (buf : List ReceivedSymbol) (x : ReceivedSymbol) : List ReceivedSymbol :=
  if buf.length < RING_BUFFER_CAPACITY then buf ++ [x] else buf.tail ++ [x]

/-- Modelled from the spec: one batch through the Channel Simulator →
Demodulator → Accumulator pipeline of the missing
`src/hooks/useSimulation.ts`, parameterised by the batch of per-symbol
outcomes (abstracting the random source). -/
def advance (st : SimulationState) (batch : List SymbolResult) : SimulationState :=
  { st with
    symbolCount := st.symbolCount + batch.length
    bitCount := st.bitCount + batch.length * BITS_PER_SYMBOL st.scheme
    bitErrorCount := st.bitErrorCount + (batch.map SymbolResult.bitErrors).sum
    recentSymbols := batch.foldl
      (fun buf r => pushRing buf ⟨r.rI, r.rQ, r.bitErrors != 0⟩) st.recentSymbols
    currentBits := ((batch.getLast?).map SymbolResult.srcBits).getD st.currentBits }

/-- Modelled from the spec: `step()` of the missing
`src/hooks/useSimulation.ts` runs one batch only while `Stopped`; while
`Playing` it is a no-op. -/
def stepSim (st : SimulationState) (batch : List SymbolResult) : SimulationState :=
  if st.isPlaying then st else advance st batch

/-- Modelled from the spec: `reset()` of the missing
`src/hooks/useSimulation.ts` zeroes the counters and empties the ring buffer
without touching the playback state or the scheme/SNR/speed configuration. -/
def resetSim (st : SimulationState) : SimulationState :=
  { st with symbolCount := 0, bitCount := 0, bitErrorCount := 0, recentSymbols := [] }

/-- A concrete stopped state used by the step witness. -/
def stoppedState : SimulationState :=
  ⟨.QPSK, 10, false, 100, 0, 0, 0, [], []⟩

/-- A concrete one-symbol batch used by the step witness. -/
def oneSymbolBatch : List SymbolResult :=
  [⟨1, 1, 1, [true, false]⟩]

/-! ### Theorems -/

theorem map_bits_eq (s : ModulationScheme) :
    (generateConstellation s).map ConstellationPoint.bits = constellationBits s := by
  cases s <;> simp [generateConstellation, constellationBits]

/-- C2: for every modulation scheme, points adjacent in the natural adjacency
(consecutive phases with circular wrap-around for BPSK/QPSK/8-PSK; same-row or
same-column neighbours of the 4×4 / 8×8 lattice for 16-QAM/64-QAM) carry bit
labels that differ in exactly one bit position. -/
theorem gray_coding_adjacency :
    grayCircularOK ((generateConstellation .BPSK).map ConstellationPoint.bits) ∧
    grayCircularOK ((generateConstellation .QPSK).map ConstellationPoint.bits) ∧
    grayCircularOK ((generateConstellation .PSK8).map ConstellationPoint.bits) ∧
    grayLatticeOK 4 ((generateConstellation .QAM16).map ConstellationPoint.bits) ∧
    grayLatticeOK 8 ((generateConstellation .QAM64).map ConstellationPoint.bits) := by
  simp only [map_bits_eq]
  refine ⟨?_, ?_, ?_, ?_, ?_⟩ <;> decide

/-- Witness for C2: the Gray-coding theorem applied to the first pair of
adjacent 8-PSK labels. -/
theorem gray_coding_adjacency_witness :
    hamming ((constellationBits .PSK8).getD 0 []) ((constellationBits .PSK8).getD 1 []) = 1 := by
  have h := gray_coding_adjacency.2.2.1
  rw [map_bits_eq] at h
  exact h 0 (by decide)

theorem energy_sum (s : ModulationScheme) :
    ((generateConstellation s).map (fun p => p.I ^ 2 + p.Q ^ 2)).sum =
      ((2 : ℝ) ^ BITS_PER_SYMBOL s) := by
  cases s
  case BPSK =>
    simp [generateConstellation, BITS_PER_SYMBOL]
    norm_num
  case QPSK =>
    have hr : List.range 4 = [0, 1, 2, 3] := rfl
    rw [generateConstellation, hr]
    simp only [List.map_cons, List.map_nil, List.sum_cons, List.sum_nil,
      Real.cos_sq_add_sin_sq]
    norm_num [BITS_PER_SYMBOL]
  case PSK8 =>
    have hr : List.range 8 = [0, 1, 2, 3, 4, 5, 6, 7] := rfl
    rw [generateConstellation, hr]
    simp only [List.map_cons, List.map_nil, List.sum_cons, List.sum_nil,
      Real.cos_sq_add_sin_sq]
    norm_num [BITS_PER_SYMBOL]
  case QAM16 =>
    have hr : List.range 16 = [0, 1, 2, 3, 4, 5, 6, 7, 8, 9, 10, 11, 12, 13, 14, 15] := rfl
    rw [generateConstellation, hr]
    simp only [List.map_cons, List.map_nil, List.sum_cons, List.sum_nil]
    ring_nf
    rw [inv_pow, Real.sq_sqrt] <;> norm_num [BITS_PER_SYMBOL]
  case QAM64 =>
    have hr : List.range 64 =
      [0, 1, 2, 3, 4, 5, 6, 7, 8, 9, 10, 11, 12, 13, 14, 15,
       16, 17, 18, 19, 20, 21, 22, 23, 24, 25, 26, 27, 28, 29, 30, 31,
       32, 33, 34, 35, 36, 37, 38, 39, 40, 41, 42, 43, 44, 45, 46, 47,
       48, 49, 50, 51, 52, 53, 54, 55, 56, 57, 58, 59, 60, 61, 62, 63] := rfl
    rw [generateConstellation, hr]
    simp only [List.map_cons, List.map_nil, List.sum_cons, List.sum_nil]
    ring_nf
    rw [inv_pow, Real.sq_sqrt] <;> norm_num [BITS_PER_SYMBOL]

/-- C3: every scheme's constellation has exactly 2^(bits-per-symbol) points,
and the mean of I²+Q² over all of its points equals 1 exactly (the real-number
model of "within floating-point tolerance"). -/
theorem constellation_size_and_energy (s : ModulationScheme) :
    (generateConstellation s).length = 2 ^ BITS_PER_SYMBOL s ∧
    ((generateConstellation s).map (fun p => p.I ^ 2 + p.Q ^ 2)).sum /
      ((generateConstellation s).length : ℝ) = 1 := by
  have hlen : (generateConstellation s).length = 2 ^ BITS_PER_SYMBOL s := by
    cases s <;> simp [generateConstellation, BITS_PER_SYMBOL]
  refine ⟨hlen, ?_⟩
  rw [energy_sum s, hlen]
  rw [div_eq_one_iff_eq (by positivity)]
  push_cast
  ring

theorem bits_pos (s : ModulationScheme) : 0 < BITS_PER_SYMBOL s := by
  cases s <;> simp [BITS_PER_SYMBOL]

theorem ebn0Linear_pos (snrDb : ℝ) : 0 < ebn0Linear snrDb :=
  Real.rpow_pos_of_pos (by norm_num) _

/-- C1: for every modulation scheme and SNR value, the per-dimension Gaussian
noise variance (the square of the noise standard deviation) equals
1/(2·k·EbN0_linear), where k is bits-per-symbol, given unit symbol energy. -/
theorem noise_variance_formula (s : ModulationScheme) (snrDb : ℝ) :
    noiseStdDev s snrDb ^ 2 =
      1 / (2 * (BITS_PER_SYMBOL s : ℝ) * ebn0Linear snrDb) := by
  have hγ := ebn0Linear_pos snrDb
  have hk : (0:ℝ) < (BITS_PER_SYMBOL s : ℝ) := by exact_mod_cast bits_pos s
  rw [noiseStdDev, Real.sq_sqrt (by rw [noiseN0]; positivity), noiseN0]
  field_simp
  ring

theorem gauss_integrable : Integrable (fun t : ℝ => Real.exp (-(1/2) * t ^ 2)) :=
  integrable_exp_neg_mul_sq (by norm_num : (0:ℝ) < 1/2)

theorem Qfunc_antitone {x y : ℝ} (h : x ≤ y) : Qfunc y ≤ Qfunc x := by
  unfold Qfunc
  refine mul_le_mul_of_nonneg_left ?_ (by positivity)
  refine setIntegral_mono_set gauss_integrable.integrableOn ?_ ?_
  · filter_upwards with t
    positivity
  · exact (Set.Ici_subset_Ici.mpr h).eventuallyLE

theorem Qfunc_zero : Qfunc 0 = 1 / 2 := by
  unfold Qfunc
  rw [MeasureTheory.integral_Ici_eq_integral_Ioi, integral_gaussian_Ioi,
    show (Real.pi / (1/2) : ℝ) = 2 * Real.pi by ring]
  have h2 : Real.sqrt (2 * Real.pi) ≠ 0 := ne_of_gt (Real.sqrt_pos.mpr (by positivity))
  field_simp

theorem Qfunc_lower {b : ℝ} (hb : 0 ≤ b) :
    1 / 2 - b * (Real.sqrt (2 * Real.pi))⁻¹ ≤ Qfunc b := by
  have hdisj : Disjoint (Set.Ico (0:ℝ) b) (Set.Ici b) :=
    (Set.Iio_disjoint_Ici le_rfl).mono_left Set.Ico_subset_Iio_self
  have hsplit : (∫ t in Set.Ici (0:ℝ), Real.exp (-(1/2) * t ^ 2)) =
      (∫ t in Set.Ico (0:ℝ) b, Real.exp (-(1/2) * t ^ 2)) +
      (∫ t in Set.Ici b, Real.exp (-(1/2) * t ^ 2)) := by
    rw [← MeasureTheory.setIntegral_union hdisj measurableSet_Ici
      gauss_integrable.integrableOn gauss_integrable.integrableOn,
      Set.Ico_union_Ici_eq_Ici hb]
  have hupper : (∫ t in Set.Ico (0:ℝ) b, Real.exp (-(1/2) * t ^ 2)) ≤ b := by
    have h1 : (∫ t in Set.Ico (0:ℝ) b, Real.exp (-(1/2) * t ^ 2)) ≤
        ∫ _t in Set.Ico (0:ℝ) b, (1:ℝ) := by
      refine setIntegral_mono_on gauss_integrable.integrableOn
        (integrableOn_const.mpr (Or.inr ?_)) measurableSet_Ico ?_
      · rw [Real.volume_Ico]
        exact ENNReal.ofReal_lt_top
      · intro t _ht
        exact Real.exp_le_one_iff.mpr (by nlinarith [sq_nonneg t])
    rw [setIntegral_const, Real.volume_Ico, smul_eq_mul, mul_one] at h1
    calc (∫ t in Set.Ico (0:ℝ) b, Real.exp (-(1/2) * t ^ 2)) ≤ _ := h1
    _ ≤ b := by rw [ENNReal.toReal_ofReal (by linarith)]; norm_num
  have hQb : Qfunc b = Qfunc 0 - (Real.sqrt (2 * Real.pi))⁻¹ *
      (∫ t in Set.Ico (0:ℝ) b, Real.exp (-(1/2) * t ^ 2)) := by
    unfold Qfunc
    rw [hsplit]
    ring
  rw [hQb, Qfunc_zero]
  have hinv : (0:ℝ) ≤ (Real.sqrt (2 * Real.pi))⁻¹ := by positivity
  nlinarith [mul_le_mul_of_nonneg_left hupper hinv]

theorem ebn0Linear_mono {a b : ℝ} (h : a ≤ b) : ebn0Linear a ≤ ebn0Linear b := by
  unfold ebn0Linear
  exact (Real.rpow_le_rpow_left_iff (by norm_num)).mpr (by linarith)

/-- C4: for every fixed scheme, theoreticalBER is non-increasing in snrDb. -/
theorem theoreticalBER_antitone (s : ModulationScheme) {a b : ℝ} (hab : a ≤ b) :
    theoreticalBER s b ≤ theoreticalBER s a := by
  have hγ := ebn0Linear_mono hab
  have hsin : (0:ℝ) ≤ Real.sin (Real.pi / 8) :=
    Real.sin_nonneg_of_nonneg_of_le_pi (by positivity) (by linarith [Real.pi_pos])
  cases s
  case BPSK => exact Qfunc_antitone (Real.sqrt_le_sqrt (by linarith))
  case QPSK => exact Qfunc_antitone (Real.sqrt_le_sqrt (by linarith))
  case PSK8 =>
    refine mul_le_mul_of_nonneg_left ?_ (by norm_num)
    exact Qfunc_antitone (mul_le_mul_of_nonneg_right (Real.sqrt_le_sqrt (by linarith)) hsin)
  case QAM16 =>
    refine mul_le_mul_of_nonneg_left ?_ ?_
    · exact Qfunc_antitone (Real.sqrt_le_sqrt (by nlinarith))
    · have h4 : Real.sqrt 16 = 4 := by
        rw [show (16:ℝ) = 4 ^ 2 by norm_num, Real.sqrt_sq (by norm_num)]
      rw [h4]; norm_num
  case QAM64 =>
    refine mul_le_mul_of_nonneg_left ?_ ?_
    · exact Qfunc_antitone (Real.sqrt_le_sqrt (by nlinarith))
    · have h8 : Real.sqrt 64 = 8 := by
        rw [show (64:ℝ) = 8 ^ 2 by norm_num, Real.sqrt_sq (by norm_num)]
      rw [h8]; norm_num

/-- Witness for C4: monotonicity applied to BPSK between 0 dB and 1 dB. -/
theorem theoreticalBER_antitone_witness :
    (0:ℝ) ≤ 1 ∧ theoreticalBER .BPSK 1 ≤ theoreticalBER .BPSK 0 :=
  ⟨by norm_num, theoreticalBER_antitone .BPSK (by norm_num)⟩

theorem ebn0_neg30 : ebn0Linear (-30) = 1 / 1000 := by
  unfold ebn0Linear
  rw [show ((-30:ℝ)/10) = ((-3 : ℤ) : ℝ) by norm_num, Real.rpow_intCast]
  norm_num

/-- Counterexample for C5: at snrDb = −30 the 8-PSK approximation formula is
strictly below the BPSK value, so the claimed ordering
BPSK ≤ QPSK ≤ 8-PSK ≤ 16-QAM ≤ 64-QAM fails at a fixed snrDb. -/
theorem theoreticalBER_ordering_fails :
    theoreticalBER .PSK8 (-30) < theoreticalBER .BPSK (-30) := by
  have h8 : theoreticalBER ModulationScheme.PSK8 (-30) =
      (2/3) * Qfunc (Real.sqrt (2 * 3 * (1/1000)) * Real.sin (Real.pi / 8)) := by
    rw [theoreticalBER, ebn0_neg30]
  have hb : theoreticalBER ModulationScheme.BPSK (-30) = Qfunc (Real.sqrt (1/500)) := by
    rw [theoreticalBER, ebn0_neg30, show (2 * (1/1000) : ℝ) = 1/500 by norm_num]
  rw [h8, hb]
  have hsin : (0:ℝ) ≤ Real.sin (Real.pi / 8) :=
    Real.sin_nonneg_of_nonneg_of_le_pi (by positivity) (by linarith [Real.pi_pos])
  have harg : (0:ℝ) ≤ Real.sqrt (2 * 3 * (1/1000)) * Real.sin (Real.pi / 8) :=
    mul_nonneg (Real.sqrt_nonneg _) hsin
  have hleft : (2/3) * Qfunc (Real.sqrt (2 * 3 * (1/1000)) * Real.sin (Real.pi / 8)) ≤ 1/3 := by
    have := (Qfunc_antitone harg).trans_eq Qfunc_zero
    linarith
  have hbpos : (0:ℝ) ≤ Real.sqrt (1/500) := Real.sqrt_nonneg _
  have hlow := Qfunc_lower hbpos
  have htpos : (0:ℝ) < Real.sqrt (2 * Real.pi) := Real.sqrt_pos.mpr (by positivity)
  have h6b : 6 * Real.sqrt (1/500) < Real.sqrt (2 * Real.pi) := by
    have h36 : (6:ℝ) = Real.sqrt 36 := by
      rw [show (36:ℝ) = 6 ^ 2 by norm_num, Real.sqrt_sq (by norm_num)]
    rw [h36, ← Real.sqrt_mul (by norm_num)]
    exact (Real.sqrt_lt_sqrt_iff (by norm_num)).mpr (by nlinarith [Real.pi_gt_three])
  have hsmall : Real.sqrt (1/500) * (Real.sqrt (2 * Real.pi))⁻¹ < 1/6 := by
    rw [← div_eq_mul_inv, div_lt_div_iff₀ htpos (by norm_num : (0:ℝ) < 6)]
    linarith
  linarith

/-- C5 (amended): at every fixed snrDb, BPSK and QPSK have exactly equal
theoretical BER; the full cross-scheme ordering does not hold at low SNR. -/
theorem theoreticalBER_bpsk_eq_qpsk (snrDb : ℝ) :
    theoreticalBER .BPSK snrDb = theoreticalBER .QPSK snrDb := rfl

/-- C6: the simulated BER is bitErrorCount / bitCount whenever bitCount > 0;
when bitCount = 0 the sentinel 0 is returned instead of dividing; a BER ratio
against a theoretical BER of 0 yields the no-data sentinel; and the plot is
given the no-data sentinel when bitCount = 0. -/
theorem simulatedBER_sentinels :
    (∀ e b : ℕ, 0 < b → simulatedBER e b = (e : ℝ) / (b : ℝ)) ∧
    (∀ e : ℕ, simulatedBER e 0 = 0) ∧
    (∀ sim theo : ℝ, theo = 0 → berRatio sim theo = none) ∧
    (∀ cur : ℝ, berPlotSimulated 0 cur = none) := by
  refine ⟨?_, ?_, ?_, ?_⟩
  · intro e b hb
    rw [simulatedBER, if_neg (Nat.pos_iff_ne_zero.mp hb)]
  · intro e
    rw [simulatedBER, if_pos rfl]
  · intro sim theo h
    rw [berRatio, if_neg]
    rintro ⟨h1, -⟩
    rw [h] at h1
    exact lt_irrefl 0 h1
  · intro cur
    rw [berPlotSimulated, if_neg (lt_irrefl 0)]

/-- Witness for C6: the sentinel theorem at concrete inputs, including the
spec's example scenario of 50 errors in 50000 bits. -/
theorem simulatedBER_sentinels_witness :
    simulatedBER 50 50000 = (50 : ℝ) / 50000 ∧ simulatedBER 3 0 = 0 ∧
    berRatio 1 0 = none ∧ berPlotSimulated 0 1 = none :=
  ⟨simulatedBER_sentinels.1 50 50000 (by norm_num),
   simulatedBER_sentinels.2.1 3,
   simulatedBER_sentinels.2.2.1 1 0 rfl,
   simulatedBER_sentinels.2.2.2 1⟩

/-- C7: while Stopped, step() runs exactly one batch (advancing symbolCount,
bitCount and bitErrorCount by one batch's worth) and stays Stopped; while
Playing, step() is a no-op, not an error. -/
theorem step_state_machine (st : SimulationState) (batch : List SymbolResult) :
    (st.isPlaying = false →
      (stepSim st batch).symbolCount = st.symbolCount + batch.length ∧
      (stepSim st batch).bitCount =
        st.bitCount + batch.length * BITS_PER_SYMBOL st.scheme ∧
      (stepSim st batch).bitErrorCount =
        st.bitErrorCount + (batch.map SymbolResult.bitErrors).sum ∧
      (stepSim st batch).isPlaying = false) ∧
    (st.isPlaying = true → stepSim st batch = st) := by
  constructor <;> intro h <;> simp [stepSim, advance, h]

/-- Witness for C7: one step from a concrete stopped state with a one-symbol
batch advances the counters by exactly that batch. -/
theorem step_state_machine_witness :
    (stepSim stoppedState oneSymbolBatch).symbolCount = 1 ∧
    (stepSim stoppedState oneSymbolBatch).bitCount = 2 ∧
    (stepSim stoppedState oneSymbolBatch).bitErrorCount = 1 ∧
    (stepSim stoppedState oneSymbolBatch).isPlaying = false := by
  have h := (step_state_machine stoppedState oneSymbolBatch).1 rfl
  refine ⟨?_, ?_, ?_, h.2.2.2⟩
  · rw [h.1]; rfl
  · rw [h.2.1]; rfl
  · rw [h.2.2.1]; rfl

/-- C8: reset() zeroes symbolCount, bitCount and bitErrorCount, empties the
ring buffer, and leaves the playback state and the scheme/SNR/speed
configuration unchanged. -/
theorem reset_clears_and_preserves (st : SimulationState) :
    (resetSim st).symbolCount = 0 ∧ (resetSim st).bitCount = 0 ∧
    (resetSim st).bitErrorCount = 0 ∧ (resetSim st).recentSymbols = [] ∧
    (resetSim st).isPlaying = st.isPlaying ∧ (resetSim st).scheme = st.scheme ∧
    (resetSim st).snrDb = st.snrDb ∧
    (resetSim st).playbackSpeed = st.playbackSpeed := by
  refine ⟨rfl, rfl, rfl, rfl, rfl, rfl, rfl, rfl⟩

/-- C9: configuration setters clamp instead of rejecting: the clamped SNR
always lies in [−5, maxSnr], and the speed produced by the slider handler
always lies in [minSpeed, maxSpeed]. -/
theorem config_clamping :
    (∀ maxSnr value : ℝ, -5 ≤ maxSnr →
      -5 ≤ setSnrDbClamped maxSnr value ∧ setSnrDbClamped maxSnr value ≤ maxSnr) ∧
    (∀ minSpeed maxSpeed sliderValue : ℝ, minSpeed ≤ maxSpeed →
      minSpeed ≤ handleSpeedChange minSpeed maxSpeed sliderValue ∧
      handleSpeedChange minSpeed maxSpeed sliderValue ≤ maxSpeed) := by
  constructor
  · intro m v h
    refine ⟨le_max_left _ _, ?_⟩
    rw [setSnrDbClamped]
    exact max_le h (min_le_left _ _)
  · intro a b s h
    unfold handleSpeedChange
    refine ⟨le_max_left _ _, ?_⟩
    exact max_le h (min_le_left _ _)

/-- Witness for C9: clamping at concrete inputs, with the source's default
speed bounds (minSpeed = 10, maxSpeed = 1000). -/
theorem config_clamping_witness :
    (-5 ≤ setSnrDbClamped 12 100 ∧ setSnrDbClamped 12 100 ≤ 12) ∧
    (10 ≤ handleSpeedChange 10 1000 50 ∧ handleSpeedChange 10 1000 50 ≤ 1000) :=
  ⟨config_clamping.1 12 100 (by norm_num),
   config_clamping.2 10 1000 50 (by norm_num)⟩

/-- C10: sincSpectrum is total: inputs with |f| < 0.001 give exactly 1, and
all other inputs give sin(πf)/(πf) with a provably nonzero denominator, so no
division by zero (the real-number model of NaN/infinity) can occur. -/
theorem sincSpectrum_total (f : ℝ) :
    (|f| < 0.001 → sincSpectrum f = 1) ∧
    (0.001 ≤ |f| →
      Real.pi * f ≠ 0 ∧ sincSpectrum f = Real.sin (Real.pi * f) / (Real.pi * f)) := by
  constructor
  · intro h
    rw [sincSpectrum, if_pos h]
  · intro h
    have hne : f ≠ 0 := by
      intro h0
      rw [h0] at h
      norm_num at h
    refine ⟨mul_ne_zero (ne_of_gt Real.pi_pos) hne, ?_⟩
    rw [sincSpectrum, if_neg (not_lt.mpr h)]

/-- Witness for C10: the sinc theorem applied at f = 2. -/
theorem sincSpectrum_total_witness :
    Real.pi * 2 ≠ 0 ∧ sincSpectrum 2 = Real.sin (Real.pi * 2) / (Real.pi * 2) :=
  (sincSpectrum_total 2).2 (by norm_num)

end ModSim
